import Mathlib

/-!
# Verification of `matgl/trainer/megnet.py`

A shallow embedding of the MEGNet trainer module:

* `StreamingJSONWriter` (construction, `dump`, `close`) over an explicit
  file model (`FileHandle`: character content, cursor position, open mode,
  dirty flag).  File contents are `List Char`; the writer only ever writes
  ASCII, so character positions coincide with the byte positions used by
  Python's `seek`.
* the step functions `train_one_step` / `validate_one_step`, with the
  tensor machinery abstracted: the model is a parameter state plus a
  training-mode flag, the forward pass and the gradient update are opaque
  function parameters, and losses live in `ℚ` (exact arithmetic stands in
  for floats; the claims verified here are structural, not about rounding).
* the `MEGNetTrainer.train` orchestration: directory reset, the epoch
  loop, the checkpoint / best-model / JSON-log selection policy driven by
  `best_val_loss`.
* a small JSON reader (`json_loads`) modelling `json.loads` on the
  fragment of JSON the writer's files are made of, used to state the
  "file always parses as a JSON array of the appended records" invariant.
-/

set_option autoImplicit false

namespace Megnet

/-! ## File model

An open file as the writer sees it: its character content, the cursor
position, the mode it was opened with, and whether unflushed writes are
pending. -/

inductive OpenMode where
  | readWrite   -- Python `open(filename, "r+")`
  | writeNew    -- Python `open(filename, "w")`
  deriving DecidableEq, Repr

structure FileHandle where
  content : List Char
  pos : Nat
  mode : OpenMode
  dirty : Bool
  deriving DecidableEq, Repr

namespace FileHandle

/-- `file.seek(0, os.SEEK_END)`: move the cursor to the end of the file and
return the new absolute position (= the file length). -/
def seekEnd (f : FileHandle) : FileHandle × Nat :=
  ({ f with pos := f.content.length }, f.content.length)

/-- `file.seek(n)`: move the cursor to absolute position `n`. -/
def seekTo (f : FileHandle) (n : Nat) : FileHandle :=
  { f with pos := n }

/-- `file.write(s)`: overwrite from the cursor onwards, extending the file
when the write runs past the end; the cursor advances past the written
text and the data is buffered (dirty) until a flush. -/
def write (f : FileHandle) (s : List Char) : FileHandle :=
  { f with
    content := f.content.take f.pos ++ s ++ f.content.drop (f.pos + s.length)
    pos := f.pos + s.length
    dirty := true }

/-- `file.flush()`. -/
def flush (f : FileHandle) : FileHandle :=
  { f with dirty := false }

end FileHandle

/-! ## StreamingJSONWriter -/

structure StreamingJSONWriter where
  file : FileHandle
  delimeter : List Char    -- sic: the source spells it `delimeter`
  deriving DecidableEq, Repr

namespace StreamingJSONWriter

/-- `StreamingJSONWriter.__init__`.  The filesystem at the path is
`some content` when the file exists, `none` when it does not.
`open(_, "r+")` keeps the content and positions the cursor at 0;
`open(_, "w")` creates an empty file. -/
def init (existing : Option (List Char)) : StreamingJSONWriter :=
  match existing with
  | some content =>
      { file := { content := content, pos := 0, mode := .readWrite, dirty := false }
        delimeter := [','] }
  | none =>
      { file := { content := [], pos := 0, mode := .writeNew, dirty := false }
        delimeter := ['['] }

def close_str : List Char := '\n' :: ']' :: '\n' :: []

/-- The four-space indentation written before each record: `"\n    "`. -/
def pad : List Char := '\n' :: ' ' :: ' ' :: ' ' :: ' ' :: []

/-- `StreamingJSONWriter.dump`.  `data` is the already-serialized record
(`json.dumps(obj)`).  Seeks to `max(end_of_file - len("\n]\n"), 0)`,
writes `delimeter + "\n    " + data + "\n]\n"`, flushes, and switches the
delimiter to `","`. -/
def dump (w : StreamingJSONWriter) (data : List Char) : StreamingJSONWriter :=
  let (f1, endPos) := w.file.seekEnd
  let f2 := f1.seekTo (max ((endPos : Int) - close_str.length) 0).toNat
  let f3 := f2.write (w.delimeter ++ pad ++ data ++ close_str)
  let f4 := f3.flush
  { file := f4, delimeter := [','] }

/-- `StreamingJSONWriter.close`: releases the handle; the on-disk content
is the handle's content. -/
def close (w : StreamingJSONWriter) : List Char :=
  w.file.content

/-- One writer session on a filesystem state: construct the writer, dump
each record in order, close; returns the resulting file content. -/
def runSession (existing : Option (List Char)) (records : List (List Char)) : List Char :=
  (records.foldl dump (init existing)).close

/-- Several sessions on the same path: the first session finds the prior
filesystem state, each later one resumes on the file the previous session
left behind. -/
def runHistory (existing : Option (List Char)) : List (List (List Char)) → List Char
  | [] => existing.getD []
  | s :: ss => runHistory (some (runSession existing s)) ss

end StreamingJSONWriter

/-! ## Step functions

The tensor layer is abstracted: `P` is the model's parameter state, `G`
the batched graph, `A` the global attributes.  `forward params training g
attrs` is the (already squeezed) prediction of `model(g, edge_feat,
node_feat, attrs)` — the node/edge features are functions of `g`, so they
are not separate arguments.  `backstep params b` is the parameter state
after `loss.backward(); optimizer.step()` on batch `b`.  Loss values are
`ℚ` (exact stand-in for floats). -/

structure ModelState (P : Type) where
  params : P
  training : Bool

/-- `model.train()`. -/
def ModelState.train {P : Type} (m : ModelState P) : ModelState P :=
  { m with training := true }

/-- One element yielded by the dataloader: `(g, labels, attrs)`. -/
structure Batch (G A : Type) where
  g : G
  labels : ℚ
  attrs : A

/-- Division by zero is a fatal `ZeroDivisionError` in the source. -/
inductive StepError where
  | zeroDivision
  deriving DecidableEq, Repr

variable {P G A : Type}

/-- The body of the training loop for one batch: zero the gradients,
forward, squeeze, loss against the normalized target
`(labels - data_mean) / data_std`, backward, optimizer step.  Returns the
updated model state and the detached per-batch loss. -/
def trainBatch (forward : P → Bool → G → A → ℚ) (backstep : P → Batch G A → P)
    (loss_function : ℚ → ℚ → ℚ) (data_std data_mean : ℚ)
    (m : ModelState P) (b : Batch G A) : ModelState P × ℚ :=
  let pred := forward m.params m.training b.g b.attrs
  let loss := loss_function pred ((b.labels - data_mean) / data_std)
  ({ m with params := backstep m.params b }, loss)

/-- The full pass of the training loop: thread the model state through the
batches and collect the per-batch losses in order. -/
def trainPass (forward : P → Bool → G → A → ℚ) (backstep : P → Batch G A → P)
    (loss_function : ℚ → ℚ → ℚ) (data_std data_mean : ℚ) :
    ModelState P → List (Batch G A) → ModelState P × List ℚ
  | m, [] => (m, [])
  | m, b :: bs =>
      let r1 := trainBatch forward backstep loss_function data_std data_mean m b
      let r2 := trainPass forward backstep loss_function data_std data_mean r1.1 bs
      (r2.1, r1.2 :: r2.2)

/-- `train_one_step`: `model.train()`, run the pass accumulating
`avg_loss += loss`, then divide by `len(dataloader)` — a
`ZeroDivisionError` when the dataloader is empty.  (Wall-clock timing is
not modelled.) -/
def train_one_step (forward : P → Bool → G → A → ℚ) (backstep : P → Batch G A → P)
    (loss_function : ℚ → ℚ → ℚ) (data_std data_mean : ℚ)
    (m : ModelState P) (dataloader : List (Batch G A)) :
    Except StepError (ModelState P × ℚ) :=
  let m0 := m.train
  let r := trainPass forward backstep loss_function data_std data_mean m0 dataloader
  let avg_loss := r.2.foldl (· + ·) 0
  if dataloader.length = 0 then .error .zeroDivision
  else .ok (r.1, avg_loss / dataloader.length)

/-- The body of the validation loop for one batch, under `torch.no_grad()`:
forward, squeeze, loss of the de-normalized prediction
`data_mean + pred * data_std` against the raw label.  Nothing in the body
touches the model state. -/
def validateBatch (forward : P → Bool → G → A → ℚ)
    (loss_function : ℚ → ℚ → ℚ) (data_std data_mean : ℚ)
    (m : ModelState P) (b : Batch G A) : ModelState P × ℚ :=
  let pred := forward m.params m.training b.g b.attrs
  let loss := loss_function (data_mean + pred * data_std) b.labels
  (m, loss)

/-- The full validation pass. -/
def validatePass (forward : P → Bool → G → A → ℚ)
    (loss_function : ℚ → ℚ → ℚ) (data_std data_mean : ℚ) :
    ModelState P → List (Batch G A) → ModelState P × List ℚ
  | m, [] => (m, [])
  | m, b :: bs =>
      let r1 := validateBatch forward loss_function data_std data_mean m b
      let r2 := validatePass forward loss_function data_std data_mean r1.1 bs
      (r2.1, r1.2 :: r2.2)

/-- `validate_one_step`: no mode change, no optimizer; accumulate and
divide by `len(dataloader)`. -/
def validate_one_step (forward : P → Bool → G → A → ℚ)
    (loss_function : ℚ → ℚ → ℚ) (data_std data_mean : ℚ)
    (m : ModelState P) (dataloader : List (Batch G A)) :
    Except StepError (ModelState P × ℚ) :=
  let r := validatePass forward loss_function data_std data_mean m dataloader
  let avg_loss := r.2.foldl (· + ·) 0
  if dataloader.length = 0 then .error .zeroDivision
  else .ok (r.1, avg_loss / dataloader.length)

/-! ## Trainer orchestration

Directories are modelled as `Option (List α)`: `none` when the directory
does not exist, `some files` when it exists with the given entries.
Checkpoint files are identified by `(epoch, val_loss)`; the best-model
file by the epoch whose model it holds. -/

inductive FsError where
  | eexist   -- os.mkdir on an existing path
  | enoent   -- shutil.rmtree on a missing path
  deriving DecidableEq, Repr

/-- `shutil.rmtree(path)`. -/
def rmtree {α : Type} (d : Option (List α)) : Except FsError (Option (List α)) :=
  match d with
  | some _ => .ok none
  | none => .error .enoent

/-- `os.mkdir(path)`. -/
def mkdir {α : Type} (d : Option (List α)) : Except FsError (Option (List α)) :=
  match d with
  | some _ => .error .eexist
  | none => .ok (some [])

/-- `if os.path.exists(path): shutil.rmtree(path)` followed by
`os.mkdir(path)`. -/
def resetDir {α : Type} (d : Option (List α)) : Except FsError (Option (List α)) :=
  match d with
  | some c => do mkdir (← rmtree (some c))
  | none => mkdir none

/-- The two checkpoint directories of the current working directory. -/
structure TrainerFS where
  bestModelDir : Option (List Nat)          -- `BestModel`, entries tagged by epoch
  checkPointsDir : Option (List (Nat × ℚ))  -- `CheckPoints`, entries `(epoch, val_loss)`
  deriving DecidableEq, Repr

namespace MEGNetTrainer

/-- The directory preamble of `MEGNetTrainer.train`: reset `BestModel`,
then reset `CheckPoints`. -/
def trainSetup (fs : TrainerFS) : Except FsError TrainerFS := do
  let best ← resetDir fs.bestModelDir
  let check ← resetDir fs.checkPointsDir
  pure { bestModelDir := best, checkPointsDir := check }

/-- The state the epoch loop threads: the two directories' contents, the
epochs for which a record was dumped to the streaming JSON log, and
`best_val_loss`. -/
structure LoopState where
  checkpoints : List (Nat × ℚ)   -- files accumulated in `CheckPoints`
  bestModelFile : Option Nat     -- `BestModel/best-model.pt`, overwritten
  logEpochs : List Nat           -- epochs with a `jsonlog.dump(log_dict)` record
  best_val_loss : ℚ

/-- One iteration of the epoch loop, at 0-based index `epoch` with
validation loss `v`: on strict improvement save a checkpoint, dump a log
record, update `best_val_loss`, overwrite the best model.  (The scheduler
step and the logger.info line have no bearing on the claims.) -/
def epochBody (st : LoopState) (epoch : Nat) (v : ℚ) : LoopState :=
  if v < st.best_val_loss then
    { checkpoints := st.checkpoints ++ [(epoch + 1, v)]
      logEpochs := st.logEpochs ++ [epoch + 1]
      best_val_loss := v
      bestModelFile := some (epoch + 1) }
  else st

/-- The epoch loop over the per-epoch validation losses, starting at
0-based index `i`. -/
def trainLoop : LoopState → Nat → List ℚ → LoopState
  | st, _, [] => st
  | st, i, v :: vs => trainLoop (epochBody st i v) (i + 1) vs

/-- The trace of loop states: the state before each iteration and the
final state. -/
def loopStates : LoopState → Nat → List ℚ → List LoopState
  | st, _, [] => [st]
  | st, i, v :: vs => st :: loopStates (epochBody st i v) (i + 1) vs

/-- The loop state at session start: both directories freshly reset,
nothing logged, `best_val_loss = 1000.0`. -/
def initialState : LoopState :=
  { checkpoints := [], bestModelFile := none, logEpochs := [], best_val_loss := 1000 }

/-- `MEGNetTrainer.train` as far as checkpointing is concerned: the
directory preamble, then the epoch loop driven by the fixed sequence of
per-epoch validation losses. -/
def train (fs : TrainerFS) (val_losses : List ℚ) : Except FsError LoopState := do
  let _ ← trainSetup fs
  pure (trainLoop initialState 0 val_losses)

/-- The state trace of a session. -/
def trainStates (val_losses : List ℚ) : List LoopState :=
  loopStates initialState 0 val_losses

end MEGNetTrainer

/-! ## A JSON reader

`json.loads` on the fragment of JSON that `StreamingJSONWriter` files are
built from: arrays, objects, double-quoted strings without escapes, and
integers.  (Floats, escapes and the literals `true/false/null` never
appear in the structural claims settled here.) -/

inductive JVal where
  | jnum (n : Int)
  | jstr (s : List Char)
  | jarr (elems : List JVal)
  | jobj (fields : List (List Char × JVal))

/-- JSON insignificant whitespace. -/
def isWs (c : Char) : Bool :=
  c == ' ' || c == '\n' || c == '\t' || c == '\r'

def skipWs (cs : List Char) : List Char :=
  cs.dropWhile isWs

def digitsToNat (ds : List Char) : Nat :=
  ds.foldl (fun n c => 10 * n + (c.toNat - '0'.toNat)) 0

/-- A decimal integer, optionally signed. -/
def parseNum (cs : List Char) : Option (JVal × List Char) :=
  match cs with
  | '-' :: rest =>
      match rest.span Char.isDigit with
      | ([], _) => none
      | (ds, rest1) => some (.jnum (-(digitsToNat ds : Int)), rest1)
  | _ =>
      match cs.span Char.isDigit with
      | ([], _) => none
      | (ds, rest1) => some (.jnum (digitsToNat ds), rest1)

/-- The body of a string after the opening quote: every character up to
the closing quote (escapes are outside the fragment). -/
def parseStrBody : List Char → Option (List Char × List Char)
  | [] => none
  | c :: rest =>
      if c = '"' then some ([], rest)
      else if c = '\\' then none
      else
        match parseStrBody rest with
        | some (s, rest1) => some (c :: s, rest1)
        | none => none

mutual

/-- One JSON value, preceded by optional whitespace.  The fuel bounds the
recursion into nested values and across sequence elements; every lemma
below supplies it explicitly. -/
def parseVal : Nat → List Char → Option (JVal × List Char)
  | 0, _ => none
  | fuel + 1, cs =>
      match skipWs cs with
      | [] => none
      | c :: rest =>
          if c = '"' then
            match parseStrBody rest with
            | some (s, rest1) => some (.jstr s, rest1)
            | none => none
          else if c = '[' then
            match skipWs rest with
            | [] => none
            | c1 :: rest1 =>
                if c1 = ']' then some (.jarr [], rest1)
                else
                  match parseElems fuel (c1 :: rest1) with
                  | some (vs, rest2) => some (.jarr vs, rest2)
                  | none => none
          else if c = '{' then
            match skipWs rest with
            | [] => none
            | c1 :: rest1 =>
                if c1 = '}' then some (.jobj [], rest1)
                else
                  match parseFields fuel (c1 :: rest1) with
                  | some (fs, rest2) => some (.jobj fs, rest2)
                  | none => none
          else parseNum (c :: rest)

/-- The elements of a non-empty array, up to and including `]`. -/
def parseElems : Nat → List Char → Option (List JVal × List Char)
  | 0, _ => none
  | fuel + 1, cs =>
      match parseVal fuel cs with
      | none => none
      | some (v, rest) =>
          match skipWs rest with
          | [] => none
          | c :: rest1 =>
              if c = ',' then
                match parseElems fuel rest1 with
                | some (vs, rest2) => some (v :: vs, rest2)
                | none => none
              else if c = ']' then some ([v], rest1)
              else none

/-- The members of a non-empty object, up to and including `}`. -/
def parseFields : Nat → List Char → Option (List (List Char × JVal) × List Char)
  | 0, _ => none
  | fuel + 1, cs =>
      match skipWs cs with
      | [] => none
      | c :: rest =>
          if c = '"' then
            match parseStrBody rest with
            | none => none
            | some (k, rest1) =>
                match skipWs rest1 with
                | [] => none
                | c1 :: rest2 =>
                    if c1 = ':' then
                      match parseVal fuel rest2 with
                      | none => none
                      | some (v, rest3) =>
                          match skipWs rest3 with
                          | [] => none
                          | c2 :: rest4 =>
                              if c2 = ',' then
                                match parseFields fuel rest4 with
                                | some (fs, rest5) => some ((k, v) :: fs, rest5)
                                | none => none
                              else if c2 = '}' then some ([(k, v)], rest4)
                              else none
                    else none
          else none

end

/-- `json.loads`: one value, nothing but whitespace after it.  The fuel
`2 * length + 2` is enough for any document (every unit of nesting or
sequencing consumes input). -/
def json_loads (cs : List Char) : Option JVal :=
  match parseVal (2 * cs.length + 2) cs with
  | some (v, rest) => if skipWs rest = [] then some v else none
  | none => none

namespace StreamingJSONWriter

/-- The tail of the file from the first record on: each record indented by
`pad`, separated by commas, closed by `"\n]\n"`. -/
def elemsBody : List (List Char) → List Char
  | [] => close_str
  | [r] => r ++ close_str
  | r :: rs => r ++ ',' :: (pad ++ elemsBody rs)

/-- The same without the closing `"\n]\n"`. -/
def elemsBodyCore : List (List Char) → List Char
  | [] => []
  | [r] => r
  | r :: rs => r ++ ',' :: (pad ++ elemsBodyCore rs)

/-- The full file produced by dumping `rs` (non-empty) into a fresh file:
`"[" + "\n    " + r1 + "," + "\n    " + r2 + ... + "\n]\n"`. -/
def arrayFile (rs : List (List Char)) : List Char :=
  '[' :: (pad ++ elemsBody rs)

end StreamingJSONWriter

/-- A serialized record as `json.dumps` produces it for a `dict`: it
starts with `{` (hence is self-delimiting) and `parseVal` reads it back as
`v`, consuming exactly the record, whatever follows. -/
def DumpableRecord (r : List Char) (v : JVal) : Prop :=
  r.head? = some '{' ∧
  ∀ (fuel : Nat) (rest : List Char), 2 * r.length + 2 ≤ fuel →
    parseVal fuel (r ++ rest) = some (v, rest)

/-- The example record `{"Epoch": 1}` used as a concrete witness. -/
def exRec : List Char :=
  '{' :: '"' :: 'E' :: 'p' :: 'o' :: 'c' :: 'h' :: '"' :: ':' :: ' ' :: '1' :: '}' :: []

def exVal : JVal :=
  .jobj [('E' :: 'p' :: 'o' :: 'c' :: 'h' :: [], .jnum 1)]

/-! ## Helper lemmas on the writer's file surgery -/

namespace StreamingJSONWriter

theorem seek_target_toNat (n : Nat) :
    (max ((n : Int) - close_str.length) 0).toNat = n - 3 := by
  simp only [close_str, List.length_cons, List.length_nil]
  omega

theorem dump_content (w : StreamingJSONWriter) (data : List Char) :
    (w.dump data).file.content
      = w.file.content.take (w.file.content.length - 3)
          ++ (w.delimeter ++ pad ++ data ++ close_str) := by
  simp only [dump, FileHandle.seekEnd, FileHandle.seekTo, FileHandle.write, FileHandle.flush,
    seek_target_toNat]
  rw [List.drop_eq_nil_of_le, List.append_nil]
  simp [pad, close_str]
  omega

theorem dump_delimeter (w : StreamingJSONWriter) (data : List Char) :
    (w.dump data).delimeter = [','] := rfl

theorem dump_dirty (w : StreamingJSONWriter) (data : List Char) :
    (w.dump data).file.dirty = false := rfl

theorem dump_pos (w : StreamingJSONWriter) (data : List Char) :
    (w.dump data).file.pos
      = (max ((w.file.content.length : Int) - close_str.length) 0).toNat
          + (w.delimeter ++ pad ++ data ++ close_str).length := rfl

end StreamingJSONWriter

/-- C4: for every file state and record, `StreamingJSONWriter.dump`
seeks the write cursor to `max(end_of_file_length - 3, 0)` (3 being the
length of the closing sequence `"\n]\n"`), writes the current separator,
then a newline and four spaces, the serialized record, and `"\n]\n"`
(overwriting from the seek target, so the new content is the old content
truncated there followed by that write), leaves no unflushed data, and
sets the separator to `","` for all subsequent calls. -/
theorem dump_write_spec (w : StreamingJSONWriter) (data : List Char) :
    (w.dump data).file.content
        = w.file.content.take
            ((max ((w.file.content.length : Int) - StreamingJSONWriter.close_str.length) 0).toNat)
            ++ (w.delimeter ++ (StreamingJSONWriter.pad ++ (data ++ StreamingJSONWriter.close_str)))
      ∧ (w.dump data).file.pos
          = (max ((w.file.content.length : Int) - StreamingJSONWriter.close_str.length) 0).toNat
              + (w.delimeter ++ StreamingJSONWriter.pad ++ data
                  ++ StreamingJSONWriter.close_str).length
      ∧ (w.dump data).file.dirty = false
      ∧ (w.dump data).delimeter = [','] := by
  refine ⟨?_, StreamingJSONWriter.dump_pos w data, StreamingJSONWriter.dump_dirty w data,
    StreamingJSONWriter.dump_delimeter w data⟩
  rw [StreamingJSONWriter.dump_content, StreamingJSONWriter.seek_target_toNat]
  simp [List.append_assoc]

/-- C5: constructing a `StreamingJSONWriter` on an existing path opens
the file read+write, keeping its content, with `","` as the next
separator; on a missing path it creates the file empty with `"["` as the
first separator. -/
theorem init_open_modes :
    (∀ c : List Char,
        StreamingJSONWriter.init (some c)
          = { file := { content := c, pos := 0, mode := .readWrite, dirty := false }
              delimeter := [','] })
      ∧ StreamingJSONWriter.init none
          = { file := { content := [], pos := 0, mode := .writeNew, dirty := false }
              delimeter := ['['] } :=
  ⟨fun _ => rfl, rfl⟩

/-- C7: on a dataloader with zero batches, `train_one_step` and
`validate_one_step` hit an unguarded division by zero when averaging the
accumulated loss, which is fatal (`ZeroDivisionError`). -/
theorem empty_dataloader_zero_division {P G A : Type}
    (forward : P → Bool → G → A → ℚ) (backstep : P → Batch G A → P)
    (loss_function : ℚ → ℚ → ℚ) (data_std data_mean : ℚ) (m : ModelState P) :
    train_one_step forward backstep loss_function data_std data_mean m ([] : List (Batch G A))
        = .error .zeroDivision
      ∧ validate_one_step forward loss_function data_std data_mean m ([] : List (Batch G A))
        = .error .zeroDivision :=
  ⟨rfl, rfl⟩

theorem trainSetup_ok (fs : TrainerFS) :
    MEGNetTrainer.trainSetup fs
      = .ok { bestModelDir := some [], checkPointsDir := some [] } := by
  obtain ⟨b, c⟩ := fs
  cases b <;> cases c <;> rfl

/-- C8: whatever the prior filesystem state, the preamble of
`MEGNetTrainer.train` deletes the `BestModel` and `CheckPoints`
directories recursively when they exist and recreates each empty, without
failing, so training always starts with both directories empty; the
outcome of `train` is therefore independent of their prior contents. -/
theorem train_resets_directories :
    (∀ fs : TrainerFS,
        MEGNetTrainer.trainSetup fs = .ok { bestModelDir := some [], checkPointsDir := some [] })
      ∧ ∀ (fs fs2 : TrainerFS) (val_losses : List ℚ),
          MEGNetTrainer.train fs val_losses = MEGNetTrainer.train fs2 val_losses := by
  refine ⟨trainSetup_ok, fun fs fs2 val_losses => ?_⟩
  simp [MEGNetTrainer.train, trainSetup_ok]

/-! ## Step-function lemmas -/

theorem trainPass_training {P G A : Type} (forward : P → Bool → G → A → ℚ)
    (backstep : P → Batch G A → P) (loss_function : ℚ → ℚ → ℚ) (data_std data_mean : ℚ)
    (m : ModelState P) (bs : List (Batch G A)) :
    ((trainPass forward backstep loss_function data_std data_mean m bs).1).training
      = m.training := by
  induction bs generalizing m with
  | nil => rfl
  | cons b bs ih => simpa [trainPass, trainBatch] using ih _

theorem validatePass_model {P G A : Type} (forward : P → Bool → G → A → ℚ)
    (loss_function : ℚ → ℚ → ℚ) (data_std data_mean : ℚ)
    (m : ModelState P) (bs : List (Batch G A)) :
    (validatePass forward loss_function data_std data_mean m bs).1 = m := by
  induction bs generalizing m with
  | nil => rfl
  | cons b bs ih => simpa [validatePass, validateBatch] using ih _

/-- C3: `train_one_step` computes each per-batch loss from the raw
(squeezed) prediction against the normalized target
`(label - mean) / std`, while `validate_one_step` computes it from the
de-normalized prediction `mean + pred * std` against the raw label; on a
concrete input with `std = 2 ≠ 1` the two computations disagree on the
same prediction/label pair. -/
theorem train_val_loss_asymmetry :
    (∀ (P G A : Type) (forward : P → Bool → G → A → ℚ) (backstep : P → Batch G A → P)
        (loss_function : ℚ → ℚ → ℚ) (data_std data_mean : ℚ)
        (m : ModelState P) (b : Batch G A),
        (trainBatch forward backstep loss_function data_std data_mean m b).2
          = loss_function (forward m.params m.training b.g b.attrs)
              ((b.labels - data_mean) / data_std))
    ∧ (∀ (P G A : Type) (forward : P → Bool → G → A → ℚ)
        (loss_function : ℚ → ℚ → ℚ) (data_std data_mean : ℚ)
        (m : ModelState P) (b : Batch G A),
        (validateBatch forward loss_function data_std data_mean m b).2
          = loss_function (data_mean + forward m.params m.training b.g b.attrs * data_std)
              b.labels)
    ∧ ((2 : ℚ) ≠ 1
        ∧ (trainBatch (fun (_ : Unit) (_ : Bool) (g : ℚ) (_ : Unit) => g) (fun p _ => p)
              (fun a b => |a - b|) 2 0 ⟨(), true⟩ ⟨0, 2, ()⟩).2
          ≠ (validateBatch (fun (_ : Unit) (_ : Bool) (g : ℚ) (_ : Unit) => g)
              (fun a b => |a - b|) 2 0 ⟨(), true⟩ ⟨0, 2, ()⟩).2) := by
  refine ⟨fun _ _ _ _ _ _ _ _ _ _ => rfl, fun _ _ _ _ _ _ _ _ _ => rfl, by norm_num, ?_⟩
  simp only [trainBatch, validateBatch]
  norm_num

/-- C10: `validate_one_step` never touches the model's train/eval mode:
its pass returns the model state it was given (so the mode flag after
equals the mode flag on entry), and since `train_one_step` begins with
`model.train()` and its pass keeps the flag set, the model stays in
training mode throughout a validation pass run inside the epoch loop. -/
theorem validate_preserves_mode :
    (∀ (P G A : Type) (forward : P → Bool → G → A → ℚ)
        (loss_function : ℚ → ℚ → ℚ) (data_std data_mean : ℚ)
        (m : ModelState P) (bs : List (Batch G A)),
        ((validatePass forward loss_function data_std data_mean m bs).1).training
          = m.training)
    ∧ ∀ (P G A : Type) (forward : P → Bool → G → A → ℚ) (backstep : P → Batch G A → P)
        (train_loss val_loss : ℚ → ℚ → ℚ) (data_std data_mean : ℚ)
        (m : ModelState P) (bs bs2 : List (Batch G A)),
        ((validatePass forward val_loss data_std data_mean
            (trainPass forward backstep train_loss data_std data_mean m.train bs).1 bs2).1).training
          = true := by
  constructor
  · intro P G A forward loss_function data_std data_mean m bs
    rw [validatePass_model]
  · intro P G A forward backstep train_loss val_loss data_std data_mean m bs bs2
    rw [validatePass_model, trainPass_training]
    rfl

/-- C6: on a non-empty dataloader of `K` batches, the average loss
returned by `train_one_step` (resp. `validate_one_step`) is the sum of
the per-batch losses of its pass divided by `K`, the dataloader's
queryable length. -/
theorem step_avg_loss_eq_sum_div {P G A : Type} (forward : P → Bool → G → A → ℚ)
    (backstep : P → Batch G A → P) (train_loss val_loss : ℚ → ℚ → ℚ)
    (data_std data_mean : ℚ) (m : ModelState P) (dataloader : List (Batch G A))
    (h : dataloader ≠ []) :
    train_one_step forward backstep train_loss data_std data_mean m dataloader
        = .ok ((trainPass forward backstep train_loss data_std data_mean m.train dataloader).1,
            (trainPass forward backstep train_loss data_std data_mean m.train dataloader).2.sum
              / dataloader.length)
      ∧ validate_one_step forward val_loss data_std data_mean m dataloader
        = .ok ((validatePass forward val_loss data_std data_mean m dataloader).1,
            (validatePass forward val_loss data_std data_mean m dataloader).2.sum
              / dataloader.length) := by
  have hlen : dataloader.length ≠ 0 := by simpa using h
  constructor
  · simp only [train_one_step, hlen, if_false, ← List.sum_eq_foldl]
  · simp only [validate_one_step, hlen, if_false, ← List.sum_eq_foldl]

/-- Witness for C6 at a concrete two-batch dataloader: per-batch training
losses `[-3, -5]`, average `-4`. -/
theorem step_avg_loss_witness :
    train_one_step (fun (_ : Unit) (_ : Bool) (g : ℚ) (_ : Unit) => g) (fun p _ => p)
        (fun a b => a - b) 1 0 ⟨(), false⟩ [⟨2, 5, ()⟩, ⟨4, 9, ()⟩]
      = .ok (⟨(), true⟩, -4) := by
  have h := (step_avg_loss_eq_sum_div (fun (_ : Unit) (_ : Bool) (g : ℚ) (_ : Unit) => g)
    (fun p _ => p) (fun a b => a - b) (fun a b => a - b) 1 0 ⟨(), false⟩
    [⟨2, 5, ()⟩, ⟨4, 9, ()⟩] (by simp)).1
  rw [h]
  norm_num [trainPass, trainBatch, ModelState.train]

/-! ## Epoch-loop lemmas -/

open MEGNetTrainer

theorem epochBody_best (st : LoopState) (i : Nat) (v : ℚ) :
    (epochBody st i v).best_val_loss = min st.best_val_loss v := by
  unfold epochBody
  split
  · exact (min_eq_right (le_of_lt (by assumption))).symm
  · exact (min_eq_left (not_lt.mp (by assumption))).symm

theorem epochBody_best_le (st : LoopState) (i : Nat) (v : ℚ) :
    (epochBody st i v).best_val_loss ≤ st.best_val_loss := by
  rw [epochBody_best]
  exact min_le_left _ _

theorem trainLoop_checkpoints_eq_log : ∀ (vs : List ℚ) (st : LoopState) (i : Nat),
    st.checkpoints.map Prod.fst = st.logEpochs →
    (trainLoop st i vs).checkpoints.map Prod.fst = (trainLoop st i vs).logEpochs := by
  intro vs
  induction vs with
  | nil => intro st i h; exact h
  | cons v vs ih =>
      intro st i h
      rw [trainLoop]
      apply ih
      unfold epochBody
      split
      · simp [h]
      · exact h

theorem trainLoop_logEpochs_mem (k : Nat) : ∀ (vs : List ℚ) (st : LoopState) (i : Nat),
    k ∈ (trainLoop st i vs).logEpochs
      ↔ k ∈ st.logEpochs
        ∨ ∃ j, j < vs.length ∧ k = i + j + 1
            ∧ vs.getD j 0 < (vs.take j).foldl min st.best_val_loss := by
  intro vs
  induction vs with
  | nil => intro st i; simp [trainLoop]
  | cons v vs ih =>
      intro st i
      rw [trainLoop, ih]
      by_cases hv : v < st.best_val_loss
      · rw [show epochBody st i v
              = { checkpoints := st.checkpoints ++ [(i + 1, v)]
                  logEpochs := st.logEpochs ++ [i + 1]
                  best_val_loss := v
                  bestModelFile := some (i + 1) } from if_pos hv]
        simp only [List.mem_append, List.mem_singleton, List.length_cons]
        constructor
        · rintro ((hk | rfl) | ⟨j, hj, rfl, hlt⟩)
          · exact Or.inl hk
          · exact Or.inr ⟨0, by omega, by omega, by simpa using hv⟩
          · refine Or.inr ⟨j + 1, by omega, by omega, ?_⟩
            simpa [min_eq_right hv.le] using hlt
        · rintro (hk | ⟨j, hj, rfl, hlt⟩)
          · exact Or.inl (Or.inl hk)
          · match j with
            | 0 => exact Or.inl (Or.inr (by omega))
            | j + 1 =>
                refine Or.inr ⟨j, by omega, by omega, ?_⟩
                simpa [min_eq_right hv.le] using hlt
      · rw [show epochBody st i v = st from if_neg hv]
        constructor
        · rintro (hk | ⟨j, hj, rfl, hlt⟩)
          · exact Or.inl hk
          · refine Or.inr ⟨j + 1, by simp; omega, by omega, ?_⟩
            simpa [min_eq_left (not_lt.mp hv)] using hlt
        · rintro (hk | ⟨j, hj, rfl, hlt⟩)
          · exact Or.inl hk
          · match j with
            | 0 => exact absurd (by simpa using hlt) hv
            | j + 1 =>
                refine Or.inr ⟨j, by simp at hj; omega, by omega, ?_⟩
                simpa [min_eq_left (not_lt.mp hv)] using hlt

/-- C1 (amended): over a fixed sequence of per-epoch validation losses,
`MEGNetTrainer.train` creates a checkpoint file and a JSON log record at
exactly the same epochs, and a record exists for epoch `k` iff the
validation loss at epoch `k` is strictly smaller than the minimum of
1000.0 (the `best_val_loss` sentinel) and all prior epochs' losses — not
whenever it merely beats all prior epochs: epoch 1 qualifies only when
its loss is below 1000.0. -/
theorem checkpoint_iff_below_running_min (fs : TrainerFS) (val_losses : List ℚ) (k : Nat) :
    ∃ st, MEGNetTrainer.train fs val_losses = .ok st
      ∧ st.checkpoints.map Prod.fst = st.logEpochs
      ∧ (k ∈ st.logEpochs
          ↔ ∃ j, j < val_losses.length ∧ k = j + 1
              ∧ val_losses.getD j 0 < (val_losses.take j).foldl min 1000) := by
  refine ⟨trainLoop initialState 0 val_losses, ?_, ?_, ?_⟩
  · simp [MEGNetTrainer.train, trainSetup_ok]
  · exact trainLoop_checkpoints_eq_log val_losses initialState 0 rfl
  · rw [trainLoop_logEpochs_mem]
    simp [initialState]

/-- Counterexample to C1 as stated: with validation-loss sequence
`[1500]`, epoch 1 strictly improves on all (zero) prior epochs, yet no
checkpoint and no log record is created, because `1500 < 1000.0` (the
initial `best_val_loss`) fails. -/
theorem first_epoch_not_always_checkpointed :
    MEGNetTrainer.train { bestModelDir := none, checkPointsDir := none } [(1500 : ℚ)]
      = .ok { checkpoints := [], bestModelFile := none, logEpochs := [],
              best_val_loss := 1000 } := by
  have : ¬ ((1500 : ℚ) < 1000) := by norm_num
  simp only [MEGNetTrainer.train, trainSetup, resetDir, rmtree, mkdir, trainLoop, epochBody,
    initialState, this, if_false]
  rfl

theorem loopStates_length : ∀ (vs : List ℚ) (st : LoopState) (i : Nat),
    (loopStates st i vs).length = vs.length + 1 := by
  intro vs
  induction vs with
  | nil => intro st i; rfl
  | cons v vs ih => intro st i; simp [loopStates, ih]

theorem mem_loopStates_best_le : ∀ (vs : List ℚ) (st : LoopState) (i : Nat) (x : LoopState),
    x ∈ loopStates st i vs → x.best_val_loss ≤ st.best_val_loss := by
  intro vs
  induction vs with
  | nil =>
      intro st i x hx
      rw [show x = st by simpa [loopStates] using hx]
  | cons v vs ih =>
      intro st i x hx
      simp only [loopStates, List.mem_cons] at hx
      rcases hx with rfl | hx
      · exact le_refl _
      · exact le_trans (ih _ _ _ hx) (epochBody_best_le st i v)

/-- C9: `best_val_loss` is monotonically non-increasing across the
session: at any two points of the epoch loop's state trace, the later
value of `best_val_loss` is at most the earlier one. -/
theorem best_val_loss_antitone (val_losses : List ℚ) (i j : Nat)
    (hi : i < (trainStates val_losses).length)
    (hj : j < (trainStates val_losses).length)
    (hij : i ≤ j) :
    ((trainStates val_losses).get ⟨j, hj⟩).best_val_loss
      ≤ ((trainStates val_losses).get ⟨i, hi⟩).best_val_loss := by
  have main : ∀ (vs : List ℚ) (st : LoopState) (i0 i j : Nat)
      (hi : i < (loopStates st i0 vs).length) (hj : j < (loopStates st i0 vs).length),
      i ≤ j →
      ((loopStates st i0 vs).get ⟨j, hj⟩).best_val_loss
        ≤ ((loopStates st i0 vs).get ⟨i, hi⟩).best_val_loss := by
    intro vs
    induction vs with
    | nil =>
        intro st i0 i j hi hj hij
        simp only [loopStates, List.length_singleton] at hi hj
        obtain rfl : i = 0 := by omega
        obtain rfl : j = 0 := by omega
        exact le_refl _
    | cons v vs ih =>
        intro st i0 i j hi hj hij
        match i, j with
        | 0, 0 => exact le_refl _
        | 0, j + 1 =>
            have hmem : (loopStates st i0 (v :: vs)).get ⟨j + 1, hj⟩
                ∈ loopStates (epochBody st i0 v) (i0 + 1) vs := by
              simp only [loopStates, List.get_cons_succ]
              exact List.get_mem _ _ _
            calc ((loopStates st i0 (v :: vs)).get ⟨j + 1, hj⟩).best_val_loss
                ≤ (epochBody st i0 v).best_val_loss := mem_loopStates_best_le _ _ _ _ hmem
              _ ≤ st.best_val_loss := epochBody_best_le st i0 v
        | i + 1, j + 1 =>
            simp only [loopStates, List.get_cons_succ]
            exact ih _ _ _ _ _ _ (by omega)
  simp only [trainStates] at hi hj ⊢
  exact main val_losses initialState 0 i j hi hj hij

/-! ## Whitespace and parser plumbing -/

theorem skipWs_comma (x : List Char) : skipWs (',' :: x) = ',' :: x := rfl

theorem skipWs_lbracket (x : List Char) : skipWs ('[' :: x) = '[' :: x := rfl

theorem skipWs_lbrace (x : List Char) : skipWs ('{' :: x) = '{' :: x := rfl

theorem skipWs_close : skipWs StreamingJSONWriter.close_str = ']' :: '\n' :: [] := rfl

theorem skipWs_newline : skipWs ('\n' :: []) = [] := rfl

theorem skipWs_append (l cs : List Char) (h : ∀ c ∈ l, isWs c = true) :
    skipWs (l ++ cs) = skipWs cs := by
  induction l with
  | nil => rfl
  | cons c l ih =>
      have hc : isWs c = true := h c (List.mem_cons_self c l)
      rw [List.cons_append]
      show List.dropWhile isWs (c :: (l ++ cs)) = skipWs cs
      rw [List.dropWhile_cons, hc, if_pos rfl]
      exact ih (fun d hd => h d (List.mem_cons_of_mem c hd))

theorem pad_ws : ∀ c ∈ StreamingJSONWriter.pad, isWs c = true := by decide

/-- `parseVal` looks at its input only through `skipWs`. -/
theorem parseVal_congr (fuel : Nat) {cs cs2 : List Char} (h : skipWs cs = skipWs cs2) :
    parseVal (fuel + 1) cs = parseVal (fuel + 1) cs2 := by
  rw [parseVal, parseVal, h]

/-! ## The shape of the writer's file -/

namespace StreamingJSONWriter

theorem elemsBody_eq_core : ∀ rs : List (List Char),
    elemsBody rs = elemsBodyCore rs ++ close_str := by
  intro rs
  induction rs with
  | nil => rfl
  | cons r rs ih =>
      cases rs with
      | nil => rfl
      | cons r2 rs2 =>
          show r ++ ',' :: (pad ++ elemsBody (r2 :: rs2))
            = (r ++ ',' :: (pad ++ elemsBodyCore (r2 :: rs2))) ++ close_str
          rw [ih]
          simp [List.append_assoc]

theorem elemsBodyCore_snoc : ∀ (rs : List (List Char)) (x : List Char), rs ≠ [] →
    elemsBodyCore (rs ++ [x]) = elemsBodyCore rs ++ ',' :: (pad ++ x) := by
  intro rs
  induction rs with
  | nil => intro x h; exact absurd rfl h
  | cons r rs ih =>
      intro x _
      cases rs with
      | nil => rfl
      | cons r2 rs2 =>
          show r ++ ',' :: (pad ++ elemsBodyCore ((r2 :: rs2) ++ [x]))
            = (r ++ ',' :: (pad ++ elemsBodyCore (r2 :: rs2))) ++ ',' :: (pad ++ x)
          rw [ih x (by simp)]
          simp [List.append_assoc]

theorem arrayFile_eq (rs : List (List Char)) :
    arrayFile rs = ('[' :: (pad ++ elemsBodyCore rs)) ++ close_str := by
  rw [arrayFile, elemsBody_eq_core]
  simp [List.append_assoc]

theorem arrayFile_take (rs : List (List Char)) :
    (arrayFile rs).take ((arrayFile rs).length - 3)
      = '[' :: (pad ++ elemsBodyCore rs) := by
  rw [arrayFile_eq]
  have hlen : (('[' :: (pad ++ elemsBodyCore rs)) ++ close_str).length - 3
      = ('[' :: (pad ++ elemsBodyCore rs)).length := by
    simp [close_str]
    omega
  rw [hlen]
  exact List.take_left _ _

theorem dump_arrayFile (w : StreamingJSONWriter) (rs : List (List Char)) (data : List Char)
    (hc : w.file.content = arrayFile rs) (hd : w.delimeter = [',']) (hrs : rs ≠ []) :
    (w.dump data).file.content = arrayFile (rs ++ [data]) := by
  rw [dump_content, hc, hd, arrayFile_take]
  rw [arrayFile_eq (rs ++ [data]), elemsBodyCore_snoc rs data hrs]
  simp [List.append_assoc]

theorem dump_init_none (data : List Char) :
    ((init none).dump data).file.content = arrayFile [data] := by
  rw [dump_content]
  show List.take _ [] ++ (['['] ++ pad ++ data ++ close_str) = arrayFile [data]
  rw [List.take_nil, List.nil_append, arrayFile]
  show '[' :: (pad ++ data ++ close_str) = '[' :: (pad ++ (data ++ close_str))
  simp [List.append_assoc]

theorem foldl_dump_arrayFile : ∀ (rs : List (List Char)) (w : StreamingJSONWriter)
    (done : List (List Char)), done ≠ [] →
    w.file.content = arrayFile done → w.delimeter = [','] →
    (rs.foldl dump w).file.content = arrayFile (done ++ rs)
      ∧ (rs.foldl dump w).delimeter = [','] := by
  intro rs
  induction rs with
  | nil =>
      intro w done h hc hd
      constructor
      · rw [List.foldl_nil, hc, List.append_nil]
      · rw [List.foldl_nil, hd]
  | cons r rs ih =>
      intro w done h hc hd
      rw [List.foldl_cons]
      have h1 := dump_arrayFile w done r hc hd h
      have h2 := ih (w.dump r) (done ++ [r]) (by simp) h1 (dump_delimeter w r)
      constructor
      · rw [h2.1]
        simp [List.append_assoc]
      · exact h2.2

theorem runSession_fresh (r : List Char) (rs : List (List Char)) :
    runSession none (r :: rs) = arrayFile (r :: rs) := by
  rw [runSession, List.foldl_cons]
  have h := foldl_dump_arrayFile rs ((init none).dump r) [r] (by simp)
    (dump_init_none r) (dump_delimeter _ r)
  exact h.1

theorem runSession_resume (done rs : List (List Char)) (h : done ≠ []) :
    runSession (some (arrayFile done)) rs = arrayFile (done ++ rs) := by
  rw [runSession]
  exact (foldl_dump_arrayFile rs (init (some (arrayFile done))) done h rfl rfl).1

theorem runHistory_resume : ∀ (ss : List (List (List Char))) (done : List (List Char)),
    done ≠ [] →
    runHistory (some (arrayFile done)) ss = arrayFile (done ++ ss.flatten) := by
  intro ss
  induction ss with
  | nil => intro done h; simp [runHistory]
  | cons s ss ih =>
      intro done h
      rw [runHistory, runSession_resume done s h,
        ih (done ++ s) (fun hc => h (List.append_eq_nil.mp hc).1)]
      simp [List.append_assoc]

theorem runHistory_fresh (r : List Char) (rs : List (List Char))
    (ss : List (List (List Char))) :
    runHistory none ((r :: rs) :: ss) = arrayFile ((r :: rs) ++ ss.flatten) := by
  rw [runHistory, runSession_fresh, runHistory_resume ss (r :: rs) (by simp)]

end StreamingJSONWriter

/-- Witness for C9: with losses `[3]`, the state trace is
`[initial, after-epoch-1]` and `best_val_loss` went `1000` to `3`. -/
theorem best_val_loss_antitone_witness :
    ((trainStates [(3 : ℚ)]).get
        ⟨1, by simp [trainStates, loopStates_length]⟩).best_val_loss
      ≤ ((trainStates [(3 : ℚ)]).get
        ⟨0, by simp [trainStates, loopStates_length]⟩).best_val_loss :=
  best_val_loss_antitone [(3 : ℚ)] 0 1 _ _ (by omega)

/-! ## Parsing the writer's files back -/

open StreamingJSONWriter

theorem parseElems_cons_split (f : Nat) (cs rest1 : List Char) (v : JVal) (vs : List JVal)
    (fin : List Char)
    (h1 : parseVal f cs = some (v, ',' :: rest1))
    (h2 : parseElems f rest1 = some (vs, fin)) :
    parseElems (f + 1) cs = some (v :: vs, fin) := by
  rw [parseElems, h1]
  simp [skipWs_comma, h2]

theorem parseElems_last (f : Nat) (cs : List Char) (v : JVal)
    (h1 : parseVal f cs = some (v, close_str)) :
    parseElems (f + 1) cs = some ([v], ['\n']) := by
  rw [parseElems, h1]
  simp [skipWs_close]

theorem parseVal_lbracket (f : Nat) (rest t : List Char) (vs : List JVal) (fin : List Char)
    (hskip : skipWs rest = '{' :: t)
    (h : parseElems f ('{' :: t) = some (vs, fin)) :
    parseVal (f + 1) ('[' :: rest) = some (.jarr vs, fin) := by
  rw [parseVal, skipWs_lbracket]
  simp [hskip, h]

theorem elemsBody_single_length (r : List Char) :
    (elemsBody [r]).length = r.length + 3 := by
  show (r ++ close_str).length = r.length + 3
  simp [close_str]

theorem elemsBody_cons_length (r r2 : List Char) (rs : List (List Char)) :
    (elemsBody (r :: r2 :: rs)).length = r.length + 6 + (elemsBody (r2 :: rs)).length := by
  show (r ++ ',' :: (pad ++ elemsBody (r2 :: rs))).length = _
  simp [pad]
  omega

theorem arrayFile_length (rs : List (List Char)) :
    (arrayFile rs).length = (elemsBody rs).length + 6 := by
  simp [arrayFile, pad]

theorem parseElems_elemsBody {rs : List (List Char)} {vs : List JVal}
    (hall : List.Forall₂ DumpableRecord rs vs) : rs ≠ [] →
    ∀ (fuel : Nat) (pre : List Char), (∀ c ∈ pre, isWs c = true) →
      2 * (elemsBody rs).length + 2 ≤ fuel →
      parseElems fuel (pre ++ elemsBody rs) = some (vs, ['\n']) := by
  induction hall with
  | nil => intro h; exact absurd rfl h
  | @cons r v rs vs hrv htail ih =>
      intro _ fuel pre hpre hfuel
      obtain ⟨rt, rfl⟩ : ∃ t, r = '{' :: t := by
        rcases r with _ | ⟨a, t⟩
        · exact absurd hrv.1 (by simp)
        · refine ⟨t, ?_⟩
          have ha := hrv.1
          simp only [List.head?_cons, Option.some.injEq] at ha
          rw [ha]
      obtain ⟨f, rfl⟩ : ∃ k, fuel = k + 1 := ⟨fuel - 1, by omega⟩
      obtain ⟨f2, rfl⟩ : ∃ k, f = k + 1 := ⟨f - 1, by omega⟩
      cases rs with
      | nil =>
          cases htail
          have hlen := elemsBody_single_length ('{' :: rt)
          have h1 : parseVal (f2 + 1) (pre ++ elemsBody [('{' :: rt)])
              = some (v, close_str) := by
            rw [parseVal_congr f2 (skipWs_append pre _ hpre)]
            show parseVal (f2 + 1) (('{' :: rt) ++ close_str) = some (v, close_str)
            exact hrv.2 (f2 + 1) close_str (by omega)
          exact parseElems_last (f2 + 1) _ v h1
      | cons r2 rs2 =>
          have hlen := elemsBody_cons_length ('{' :: rt) r2 rs2
          have h1 : parseVal (f2 + 1) (pre ++ elemsBody (('{' :: rt) :: r2 :: rs2))
              = some (v, ',' :: (pad ++ elemsBody (r2 :: rs2))) := by
            rw [parseVal_congr f2 (skipWs_append pre _ hpre)]
            show parseVal (f2 + 1)
                (('{' :: rt) ++ (',' :: (pad ++ elemsBody (r2 :: rs2)))) = _
            exact hrv.2 (f2 + 1) _ (by omega)
          have h2 : parseElems (f2 + 1) (pad ++ elemsBody (r2 :: rs2))
              = some (vs, ['\n']) :=
            ih (by simp) (f2 + 1) pad pad_ws (by omega)
          exact parseElems_cons_split (f2 + 1) _ _ v vs _ h1 h2

theorem json_loads_arrayFile (rs : List (List Char)) (vs : List JVal)
    (hall : List.Forall₂ DumpableRecord rs vs) (h : rs ≠ []) :
    json_loads (arrayFile rs) = some (.jarr vs) := by
  obtain ⟨r, rs2, rfl⟩ := List.exists_cons_of_ne_nil h
  cases hall with
  | cons hrv htail =>
      rename_i v vs2
      obtain ⟨rt, rfl⟩ : ∃ t, r = '{' :: t := by
        rcases r with _ | ⟨a, t⟩
        · exact absurd hrv.1 (by simp)
        · refine ⟨t, ?_⟩
          have ha := hrv.1
          simp only [List.head?_cons, Option.some.injEq] at ha
          rw [ha]
      obtain ⟨u, hu⟩ : ∃ u, elemsBody (('{' :: rt) :: rs2) = '{' :: u := by
        cases rs2 with
        | nil => exact ⟨rt ++ close_str, rfl⟩
        | cons a b => exact ⟨rt ++ ',' :: (pad ++ elemsBody (a :: b)), rfl⟩
      have hlen := arrayFile_length (('{' :: rt) :: rs2)
      rw [json_loads]
      obtain ⟨f, hf⟩ : ∃ f, 2 * (arrayFile (('{' :: rt) :: rs2)).length + 2 = f + 1 + 1 :=
        ⟨2 * (arrayFile (('{' :: rt) :: rs2)).length, by omega⟩
      rw [hf]
      have harr : parseVal (f + 1 + 1) (arrayFile (('{' :: rt) :: rs2))
          = some (.jarr (v :: vs2), ['\n']) := by
        rw [show arrayFile (('{' :: rt) :: rs2)
              = '[' :: (pad ++ elemsBody (('{' :: rt) :: rs2)) from rfl]
        have hskip : skipWs (pad ++ elemsBody (('{' :: rt) :: rs2)) = '{' :: u := by
          rw [skipWs_append _ _ pad_ws, hu, skipWs_lbrace]
        refine parseVal_lbracket (f + 1) _ u _ _ hskip ?_
        rw [← hu]
        have := parseElems_elemsBody (List.Forall₂.cons hrv htail) (by simp)
          (f + 1) [] (by simp) (by omega)
        simpa using this
      rw [harr]
      simp [skipWs_newline]

/-- C2 (amended): for every history of append sessions on the same path
(the first session creating the file and appending at least one record,
later sessions resuming it), the final file content parses as a valid
JSON array whose elements are exactly the appended records in append
order, with prior-session records preserved.  The "zero appends"
idempotence part of the claim is false (see the counterexample): a fresh
writer closed without appending leaves an empty file, which is not valid
JSON. -/
theorem writer_file_parses_as_appended_records
    (s1 : List (List Char)) (ss : List (List (List Char))) (vs : List JVal)
    (h1 : s1 ≠ [])
    (hrec : List.Forall₂ DumpableRecord (s1 ++ ss.flatten) vs) :
    json_loads (runHistory none (s1 :: ss)) = some (.jarr vs) := by
  obtain ⟨r, rs, rfl⟩ := List.exists_cons_of_ne_nil h1
  rw [runHistory_fresh]
  exact json_loads_arrayFile _ vs hrec (by simp)

/-- Counterexample to C2 as stated: a writer constructed on a fresh path
and closed after zero appends leaves an empty file, and the empty file
does not parse as JSON at all (so in particular not as an empty-or-
singleton JSON array). -/
theorem fresh_writer_zero_appends_not_json :
    runSession none [] = [] ∧ json_loads [] = none :=
  ⟨rfl, rfl⟩

/-- The example record `{"Epoch": 1}` is read back by the parser as the
object it denotes, consuming exactly itself. -/
theorem exRec_dumpable : DumpableRecord exRec exVal := by
  refine ⟨rfl, ?_⟩
  intro fuel rest h
  obtain ⟨f, rfl⟩ : ∃ k, fuel = k + 3 := ⟨fuel - 3, by simp [exRec] at h; omega⟩
  rfl

/-- Witness for C2 (amended): one session appending `{"Epoch": 1}` to a
fresh path leaves a file parsing as the singleton array of that object. -/
theorem writer_file_parses_witness :
    json_loads (runHistory none [[exRec]]) = some (.jarr [exVal]) := by
  have h := writer_file_parses_as_appended_records [exRec] [] [exVal] (by simp)
    (by simpa using List.Forall₂.cons exRec_dumpable List.Forall₂.nil)
  simpa using h

end Megnet
